import Mathlib

/-!
# state_machine: the guarded transition engine

A shallow embedding of `state_machine.go`.

* A Go `State` interface value is an `Option S`: `none` is the nil interface,
  `some r` is a reference `r : S` to an application object.
* What the application's state objects do when one of their four methods is
  called is given by a method table `State S W` over the application's mutable
  data `W`. A call returns a value and a new `W`, panics, or never returns.
  Each method also receives what it can read of the machine at the moment of
  the call (nothing while the machine is not yet constructed).
* The machine appends every method call it makes to a ghost log, which is how
  the order and number of calls are stated.
* `sync.Mutex` is a flag; locking a locked mutex from the only goroutine never
  returns.
-/

namespace StateMachine

/-- The three error values declared at the top of `state_machine.go`. -/
inductive Error where
  | ErrTransitionDenied
  | ErrNilInitialState
  | ErrUnusableInitialState
  deriving DecidableEq, Repr

/-- How a call ends: it returns `a` leaving the data `s`, it panics leaving the
data `s`, or it never returns. -/
inductive Outcome (α σ : Type) where
  | ret (a : α) (s : σ)
  | panic (s : σ)
  | hang
  deriving DecidableEq, Repr

end StateMachine

/-- The machine record `type StateMachine struct`: the active state (an interface
value) and the mutex, `true` when locked. -/
structure StateMachine (S : Type) where
  activeState : Option S
  mutex : Bool
  deriving DecidableEq, Repr

namespace StateMachine

/-- The method table of `type State interface`, for objects referred to by `S`
over application data `W`. The second argument of the two predicates is the
interface value passed to them; `view` is the machine as the callee can read it
during the call, `none` when no machine has been constructed yet. -/
structure State (S W : Type) where
  EnterAllowed : S → (source : Option S) → (view : Option (StateMachine S)) → W → Outcome Bool W
  ExitAllowed : S → (destination : Option S) → (view : Option (StateMachine S)) → W → Outcome Bool W
  Enter : S → (view : Option (StateMachine S)) → W → Outcome Unit W
  Exit : S → (view : Option (StateMachine S)) → W → Outcome Unit W

/-- A method call made by the machine: receiver and argument. -/
inductive Call (S : Type) where
  | EnterAllowed (recv : S) (source : Option S)
  | ExitAllowed (recv : S) (destination : Option S)
  | Enter (recv : S)
  | Exit (recv : S)
  deriving DecidableEq, Repr

/-- A log entry: the call, and the machine as it was when the call was made. -/
structure Event (S : Type) where
  call : Call S
  view : Option (StateMachine S)
  deriving DecidableEq, Repr

/-- The application data together with the log of calls made so far. -/
structure World (S W : Type) where
  app : W
  log : List (Event S)
  deriving DecidableEq, Repr

/-- A machine together with the world it lives in. -/
structure Cfg (S W : Type) where
  machine : StateMachine S
  world : World S W
  deriving DecidableEq, Repr

/-- Whether a call is one of the two hooks `Enter` / `Exit`. -/
def Call.isHook {S : Type} : Call S → Bool
  | .Enter _ => true
  | .Exit _ => true
  | .EnterAllowed _ _ => false
  | .ExitAllowed _ _ => false

/-- The hook calls among a list of log entries, in order. -/
def hookTrace {S : Type} (evs : List (Event S)) : List (Call S) :=
  (evs.map (fun e => e.call)).filter Call.isHook

/-- Dynamic dispatch of `recv.EnterAllowed(source)`: a nil receiver panics before
any method runs; otherwise the call is logged and the method runs. -/
def callEnterAllowed {S W : Type} (β : State S W) (recv source : Option S)
    (view : Option (StateMachine S)) (wd : World S W) : Outcome Bool (World S W) :=
  match recv with
  | none => .panic wd
  | some r =>
    match β.EnterAllowed r source view wd.app with
    | .ret b app => .ret b ⟨app, wd.log ++ [⟨.EnterAllowed r source, view⟩]⟩
    | .panic app => .panic ⟨app, wd.log ++ [⟨.EnterAllowed r source, view⟩]⟩
    | .hang => .hang

/-- Dynamic dispatch of `recv.ExitAllowed(destination)`. -/
def callExitAllowed {S W : Type} (β : State S W) (recv destination : Option S)
    (view : Option (StateMachine S)) (wd : World S W) : Outcome Bool (World S W) :=
  match recv with
  | none => .panic wd
  | some r =>
    match β.ExitAllowed r destination view wd.app with
    | .ret b app => .ret b ⟨app, wd.log ++ [⟨.ExitAllowed r destination, view⟩]⟩
    | .panic app => .panic ⟨app, wd.log ++ [⟨.ExitAllowed r destination, view⟩]⟩
    | .hang => .hang

/-- Dynamic dispatch of `recv.Enter()`. -/
def callEnter {S W : Type} (β : State S W) (recv : Option S)
    (view : Option (StateMachine S)) (wd : World S W) : Outcome Unit (World S W) :=
  match recv with
  | none => .panic wd
  | some r =>
    match β.Enter r view wd.app with
    | .ret u app => .ret u ⟨app, wd.log ++ [⟨.Enter r, view⟩]⟩
    | .panic app => .panic ⟨app, wd.log ++ [⟨.Enter r, view⟩]⟩
    | .hang => .hang

/-- Dynamic dispatch of `recv.Exit()`. -/
def callExit {S W : Type} (β : State S W) (recv : Option S)
    (view : Option (StateMachine S)) (wd : World S W) : Outcome Unit (World S W) :=
  match recv with
  | none => .panic wd
  | some r =>
    match β.Exit r view wd.app with
    | .ret u app => .ret u ⟨app, wd.log ++ [⟨.Exit r, view⟩]⟩
    | .panic app => .panic ⟨app, wd.log ++ [⟨.Exit r, view⟩]⟩
    | .hang => .hang

/-- The function `NewStateMachine(initialState)`: the result pairs the returned
machine pointer (`none` for nil) with the returned error (`none` for nil). -/
def NewStateMachine {S W : Type} (β : State S W) (initialState : Option S) (wd : World S W) :
    Outcome (Option (StateMachine S) × Option Error) (World S W) :=
  match initialState with
  | none => .ret (none, some .ErrNilInitialState) wd
  | some _ =>
    match callEnterAllowed β initialState initialState none wd with
    | .hang => .hang
    | .panic wd1 => .panic wd1
    | .ret false wd1 => .ret (none, some .ErrUnusableInitialState) wd1
    | .ret true wd1 =>
      match callEnter β initialState none wd1 with
      | .hang => .hang
      | .panic wd2 => .panic wd2
      | .ret _ wd2 => .ret (some { activeState := initialState, mutex := false }, none) wd2

/-- The method `ActiveState()`: reads the field, takes no lock. -/
def ActiveState {S : Type} (s : StateMachine S) : Option S :=
  s.activeState

/-- The call `s.mutex.Lock()` when the mutex is free. -/
def lock {S : Type} (s : StateMachine S) : StateMachine S :=
  { s with mutex := true }

/-- The deferred `s.mutex.Unlock()`. -/
def unlock {S : Type} (s : StateMachine S) : StateMachine S :=
  { s with mutex := false }

/-- The method `Transition(destination)`. The lock is taken first (never
returning when it is already held) and released by the deferred unlock on
return and on panic alike. The right operand of `&&` runs only when the left one
returned true. The field `activeState` is written last. -/
def Transition {S W : Type} (β : State S W) (s : StateMachine S) (destination : Option S)
    (wd : World S W) : Outcome (Option Error) (Cfg S W) :=
  if s.mutex then .hang
  else
    let s1 := lock s
    match callExitAllowed β s1.activeState destination (some s1) wd with
    | .hang => .hang
    | .panic wd1 => .panic ⟨unlock s1, wd1⟩
    | .ret false wd1 => .ret (some .ErrTransitionDenied) ⟨unlock s1, wd1⟩
    | .ret true wd1 =>
      match callEnterAllowed β destination s1.activeState (some s1) wd1 with
      | .hang => .hang
      | .panic wd2 => .panic ⟨unlock s1, wd2⟩
      | .ret false wd2 => .ret (some .ErrTransitionDenied) ⟨unlock s1, wd2⟩
      | .ret true wd2 =>
        match callExit β s1.activeState (some s1) wd2 with
        | .hang => .hang
        | .panic wd3 => .panic ⟨unlock s1, wd3⟩
        | .ret _ wd3 =>
          match callEnter β destination (some s1) wd3 with
          | .hang => .hang
          | .panic wd4 => .panic ⟨unlock s1, wd4⟩
          | .ret _ wd4 => .ret none ⟨unlock { s1 with activeState := destination }, wd4⟩

/-- What the caller holds once a call is over: the data left by a return or by
a panic (which the caller may recover from), nothing when the call never ends. -/
def Outcome.after {α σ : Type} : Outcome α σ → Option σ
  | .ret _ s => some s
  | .panic s => some s
  | .hang => none

/-- One request of a caller: what the application does to its own data since
the previous call (`env`), then `Transition(destination)`. -/
structure Request (S W : Type) where
  destination : Option S
  env : W → W

/-- The outcomes of a sequence of `Transition` calls on one machine, in order.
Each call runs on the machine and world left by the previous one; the sequence
stops at a call that never ends. -/
def transitions {S W : Type} (β : State S W) (c : Cfg S W) :
    List (Request S W) → List (Outcome (Option Error) (Cfg S W))
  | [] => []
  | q :: qs =>
    match Transition β c.machine q.destination ⟨q.env c.world.app, c.world.log⟩ with
    | .ret err c1 => .ret err c1 :: transitions β c1 qs
    | .panic c1 => .panic c1 :: transitions β c1 qs
    | .hang => [.hang]

/-- The predicate calls among a list of log entries, in order. -/
def predicateTrace {S : Type} (evs : List (Event S)) : List (Call S) :=
  (evs.map (fun e => e.call)).filter (fun k => !k.isHook)

/-! ## The states of `state_machine_test.go` -/

/-- The objects the tests allocate: two `stateAllAllowed` (the `source` and the
`destination` of the tests), one `stateExitNotAllowed`, one
`stateEnterNotAllowed`. -/
inductive TestRef where
  | source
  | destination
  | exitNotAllowed
  | enterNotAllowed
  deriving DecidableEq, Repr

/-- The fields of `type stateAllAllowed struct`. -/
structure stateAllAllowed where
  Entered : Bool
  Exited : Bool
  deriving DecidableEq, Repr

/-- The mutable data of the test objects: the fields of the two
`stateAllAllowed`; the other two types have no fields. -/
structure TestData where
  source : stateAllAllowed
  destination : stateAllAllowed
  deriving DecidableEq, Repr

/-- The methods of the three test types. -/
def testStates : State TestRef TestData where
  EnterAllowed r _ _ w :=
    match r with
    | .source => .ret true w
    | .destination => .ret true w
    | .exitNotAllowed => .ret true w
    | .enterNotAllowed => .ret false w
  ExitAllowed r _ _ w :=
    match r with
    | .source => .ret true w
    | .destination => .ret true w
    | .exitNotAllowed => .ret false w
    | .enterNotAllowed => .ret true w
  Enter r _ w :=
    match r with
    | .source => .ret () { w with source := { w.source with Entered := true } }
    | .destination => .ret () { w with destination := { w.destination with Entered := true } }
    | .exitNotAllowed => .ret () w
    | .enterNotAllowed => .panic w
  Exit r _ w :=
    match r with
    | .source => .ret () { w with source := { w.source with Exited := true } }
    | .destination => .ret () { w with destination := { w.destination with Exited := true } }
    | .exitNotAllowed => .panic w
    | .enterNotAllowed => .ret () w

/-- The test data before any test body runs: all flags false, nothing logged. -/
def testWorld : World TestRef TestData :=
  ⟨⟨⟨false, false⟩, ⟨false, false⟩⟩, []⟩

/-- A machine whose active state is `a`, outside any call. -/
def machineAt (a : TestRef) : StateMachine TestRef :=
  { activeState := some a, mutex := false }

/-- What `Transition(nil)` leaves behind on a machine whose active state is the
`stateExitNotAllowed`: the same machine, and one logged predicate call. -/
def refusedNilCfg : Cfg TestRef TestData :=
  ⟨machineAt .exitNotAllowed, ⟨testWorld.app,
    [⟨Call.ExitAllowed .exitNotAllowed none, some (lock (machineAt .exitNotAllowed))⟩]⟩⟩

/-- What the accepted transition of `TestTransitionHappy` leaves behind when run
in `testWorld`: `destination` active, `source.Exited` and `destination.Entered`
set, four calls logged. -/
def happyCfg : Cfg TestRef TestData :=
  ⟨⟨some .destination, false⟩, ⟨⟨⟨false, true⟩, ⟨true, false⟩⟩,
    [⟨Call.ExitAllowed .source (some .destination), some (lock (machineAt .source))⟩,
      ⟨Call.EnterAllowed .destination (some .source), some (lock (machineAt .source))⟩,
      ⟨Call.Exit .source, some (lock (machineAt .source))⟩,
      ⟨Call.Enter .destination, some (lock (machineAt .source))⟩]⟩⟩

/-- The world left by `NewStateMachine(source)` in `testWorld`. -/
def sourceEnteredWorld : World TestRef TestData :=
  ⟨⟨⟨true, false⟩, ⟨false, false⟩⟩,
    [⟨Call.EnterAllowed .source (some .source), none⟩, ⟨Call.Enter .source, none⟩]⟩

/-- Three requests: the tests' `destination`, then nil, then the tests'
`stateEnterNotAllowed`; the application touches nothing in between. -/
def testRequests : List (Request TestRef TestData) :=
  [⟨some .destination, id⟩, ⟨none, id⟩, ⟨some .enterNotAllowed, id⟩]

/-! ## `EmptyState` -/

/-- The methods of `type EmptyState struct{}`: both predicates return true
whatever they are given, both hooks have an empty body. `S` is the set of
`*EmptyState` values the application holds. -/
def EmptyState (S W : Type) : State S W where
  EnterAllowed _ _ _ w := .ret true w
  ExitAllowed _ _ _ w := .ret true w
  Enter _ _ w := .ret () w
  Exit _ _ w := .ret () w

/-! ## The algorithm of the specification, section 4.4 -/

/-- Both predicates are side-effect-free: every call of either returns a boolean
and leaves the application data as it found them. -/
def PurePredicates {S W : Type} (β : State S W) : Prop :=
  ∀ (r : S) (a : Option S) (v : Option (StateMachine S)) (w : W),
    (∃ b, β.EnterAllowed r a v w = .ret b w) ∧ (∃ b, β.ExitAllowed r a v w = .ret b w)

/-- The transition algorithm as the specification words it, under the lock:
step 1 evaluates `current.exitAllowed(destination)`, step 2 evaluates
`destination.enterAllowed(current)` whatever step 1 gave, and only then are the
two results combined: both true runs `exit`, `enter`, the reassignment and
returns success; otherwise `TransitionDenied`. -/
def referenceTransition {S W : Type} (β : State S W) (s : StateMachine S)
    (destination : Option S) (wd : World S W) : Outcome (Option Error) (Cfg S W) :=
  if s.mutex then .hang
  else
    let s1 := lock s
    match callExitAllowed β s1.activeState destination (some s1) wd with
    | .hang => .hang
    | .panic wd1 => .panic ⟨unlock s1, wd1⟩
    | .ret step1 wd1 =>
      match callEnterAllowed β destination s1.activeState (some s1) wd1 with
      | .hang => .hang
      | .panic wd2 => .panic ⟨unlock s1, wd2⟩
      | .ret step2 wd2 =>
        if step1 && step2 then
          match callExit β s1.activeState (some s1) wd2 with
          | .hang => .hang
          | .panic wd3 => .panic ⟨unlock s1, wd3⟩
          | .ret _ wd3 =>
            match callEnter β destination (some s1) wd3 with
            | .hang => .hang
            | .panic wd4 => .panic ⟨unlock s1, wd4⟩
            | .ret _ wd4 => .ret none ⟨unlock { s1 with activeState := destination }, wd4⟩
        else .ret (some .ErrTransitionDenied) ⟨unlock s1, wd2⟩

/-- What a caller can observe of a call of `Transition`: how it ended, the
returned error, the machine (hence `ActiveState()`), the application data, and
the hooks that have been called. The predicate calls are left out. -/
def observable {S W : Type} :
    Outcome (Option Error) (Cfg S W) →
      Outcome (Option Error) (StateMachine S × W × List (Call S))
  | .ret err c => .ret err (c.machine, c.world.app, hookTrace c.world.log)
  | .panic c => .panic (c.machine, c.world.app, hookTrace c.world.log)
  | .hang => .hang

/-! ## The states of `examples/simple/simple.go`

Instants (`time.Time`) are counted in nanoseconds from the zero `time.Time`,
which is the value of a field never assigned. The clock read by `time.Now()` is
part of the application data, so that a caller can set it. -/

/-- The two objects the example allocates, `idleState` and `runningState`. -/
inductive SimpleRef where
  | idleState
  | runningState
  deriving DecidableEq, Repr

/-- The mutable data of the example: the clock, and the field `entered` of
`runningState`. -/
structure SimpleData where
  now : Int
  entered : Int
  deriving DecidableEq, Repr

/-- The library constant `time.Second`, in nanoseconds. -/
def Second : Int := 1000000000

/-- The constant `RunningStateTime = time.Duration(5) * time.Second`. -/
def RunningStateTime : Int := 5 * Second

/-- The largest `time.Duration`, an `int64` of nanoseconds. -/
def maxDuration : Int := 2 ^ 63 - 1

/-- The smallest `time.Duration`. -/
def minDuration : Int := -(2 ^ 63)

/-- The library function `time.Since(t)`, that is `time.Now().Sub(t)`: the
difference, replaced by the largest or smallest duration when it does not fit. -/
def Since (now t : Int) : Int :=
  if now - t > maxDuration then maxDuration
  else if now - t < minDuration then minDuration
  else now - t

/-- The method `runCompleted()` of `RunningState`. -/
def runCompleted (w : SimpleData) : Bool :=
  decide (Since w.now w.entered ≥ RunningStateTime)

/-- The methods of `IdleState` and `RunningState`. Logging is left out, and so
is the timer `Enter` arms: its callback runs later, from outside the call. -/
def simpleStates : State SimpleRef SimpleData where
  EnterAllowed r _ _ w :=
    match r with
    | .idleState => .ret true w
    | .runningState => .ret (runCompleted w) w
  ExitAllowed r _ _ w :=
    match r with
    | .idleState => .ret true w
    | .runningState => .ret (runCompleted w) w
  Enter r _ w :=
    match r with
    | .idleState => .ret () w
    | .runningState => .ret () { w with entered := w.now }
  Exit r _ w :=
    match r with
    | .idleState => .ret () w
    | .runningState => .ret () w

/-- The machine `main` holds after `NewStateMachine(idleState)`. -/
def idleMachine : StateMachine SimpleRef :=
  { activeState := some .idleState, mutex := false }

/-- The four calls of an accepted transition from `idleState` to
`runningState`. -/
def idleToRunningCalls : List (Event SimpleRef) :=
  [⟨Call.ExitAllowed .idleState (some .runningState), some (lock idleMachine)⟩,
    ⟨Call.EnterAllowed .runningState (some .idleState), some (lock idleMachine)⟩,
    ⟨Call.Exit .idleState, some (lock idleMachine)⟩,
    ⟨Call.Enter .runningState, some (lock idleMachine)⟩]

/-- The two predicate calls of a transition from `idleState` to `runningState`
that `runningState` refuses. -/
def idleToRunningRefused : List (Event SimpleRef) :=
  [⟨Call.ExitAllowed .idleState (some .runningState), some (lock idleMachine)⟩,
    ⟨Call.EnterAllowed .runningState (some .idleState), some (lock idleMachine)⟩]

/-- A clock reading of 4 November 2026, 00:00 UTC: 63 929 347 200 seconds after
the zero `time.Time`. -/
def clock2026 : Int := 63929347200 * Second

/-! ## Two states with a failing hook

The tests' states only panic in a hook their own predicate keeps from running.
These two allow everything, so that the hooks are reached. -/

/-- The outgoing state `A` and the incoming state `B`. -/
inductive HookRef where
  | A
  | B
  deriving DecidableEq, Repr

/-- Both predicates always return true. `B.Enter()` panics; `A.Exit()` panics
when `exitPanics` is set and returns otherwise; the other hooks return.
The data count the hook bodies that ran to completion. -/
def failingHooks (exitPanics : Bool) : State HookRef Nat where
  EnterAllowed _ _ _ w := .ret true w
  ExitAllowed _ _ _ w := .ret true w
  Enter r _ w :=
    match r with
    | .A => .ret () (w + 1)
    | .B => .panic w
  Exit r _ w :=
    match r with
    | .A => if exitPanics then .panic w else .ret () (w + 1)
    | .B => .ret () (w + 1)

/-- A machine whose active state is `A`, outside any call. -/
def machineAtA : StateMachine HookRef :=
  { activeState := some .A, mutex := false }

/-- What `TestTransitionExitNotAllowed` leaves behind when run in `testWorld`:
the same machine, and one logged predicate call. -/
def refusedByExitCfg : Cfg TestRef TestData :=
  ⟨machineAt .exitNotAllowed, ⟨testWorld.app,
    [⟨Call.ExitAllowed .exitNotAllowed (some .destination),
      some (lock (machineAt .exitNotAllowed))⟩]⟩⟩

/-! ## Sequences of calls that all return -/

/-- The errors returned by a sequence of `Transition` calls on one machine, in
order, and the configuration left by the last one; `none` when some call of the
sequence does not return. Each call runs on the machine and world left by the
previous one. -/
def returns {S W : Type} (β : State S W) (c : Cfg S W) :
    List (Request S W) → Option (List (Option Error) × Cfg S W)
  | [] => some ([], c)
  | q :: qs =>
    match Transition β c.machine q.destination ⟨q.env c.world.app, c.world.log⟩ with
    | .ret err c1 =>
      match returns β c1 qs with
      | some (errs, c2) => some (err :: errs, c2)
      | none => none
    | .panic _ => none
    | .hang => none

/-- The step of the fold: from `cur`, asked for `d`, go to `d` when
`cur.ExitAllowed(d)` and `d.EnterAllowed(cur)` hold, stay at `cur` otherwise.
`px r a` stands for `r.ExitAllowed(a)` and `pe r a` for `r.EnterAllowed(a)`. -/
def foldStep {S : Type} (px pe : S → S → Bool) (cur d : S) : S :=
  if px cur d && pe d cur then d else cur

/-- The destination of the last request that returned success (a nil error), or
`s0` when none did. -/
def lastAccepted {S : Type} (s0 : S) (l : List (S × Option Error)) : S :=
  match l.reverse.find? (fun p => p.2.isNone) with
  | some p => p.1
  | none => s0

/-- Reads a hook trace from active state `cur` on: it must be made of pairs
`Exit` of the state active at that point, then `Enter` of the next active state.
Gives the state active at the end, `none` when the trace has another form. -/
def alternates {S : Type} [DecidableEq S] : S → List (Call S) → Option S
  | cur, [] => some cur
  | cur, .Exit a :: .Enter b :: rest => if a = cur then alternates b rest else none
  | _, _ => none

/-- Reads a whole hook trace `Enter(s0), Exit(s0), Enter(s1), Exit(s1), ...`:
gives the state of the last `Enter` when the trace has that form, `none`
otherwise (in particular when it is empty or ends with an `Exit`). -/
def traceEndsAt {S : Type} [DecidableEq S] : List (Call S) → Option S
  | .Enter s0 :: rest => alternates s0 rest
  | _ => none

/-- The requests of the tests in one sequence, from `source`: to
`stateEnterNotAllowed` (denied), to `destination` (accepted), to
`stateExitNotAllowed` (accepted), back to `source` (denied). -/
def testDestinations : List (TestRef × (TestData → TestData)) :=
  [(.enterNotAllowed, id), (.destination, id), (.exitNotAllowed, id), (.source, id)]

/-- Two requests from `source`: the tests' `destination` (accepted), then the
tests' `stateEnterNotAllowed` (denied). -/
def happyThenDenied : List (Request TestRef TestData) :=
  [⟨some .destination, id⟩, ⟨some .enterNotAllowed, id⟩]

/-- What `happyThenDenied` leaves behind on the machine constructed on `source`
in `testWorld`: `destination` active and the calls of the construction, of the
accepted transition and of the denied one logged. -/
def happyThenDeniedCfg : Cfg TestRef TestData :=
  ⟨⟨some .destination, false⟩, ⟨⟨⟨true, true⟩, ⟨true, false⟩⟩,
    sourceEnteredWorld.log ++ happyCfg.world.log ++
      [⟨Call.ExitAllowed .destination (some .enterNotAllowed),
          some (lock (machineAt .destination))⟩,
        ⟨Call.EnterAllowed .enterNotAllowed (some .destination),
          some (lock (machineAt .destination))⟩]⟩⟩

end StateMachine

namespace StateMachine

/-! ## Evaluating `Transition` along each of its three returning paths -/

theorem unlock_lock {S : Type} (s : StateMachine S) (hfree : s.mutex = false) :
    unlock (lock s) = s := by
  cases s
  simp_all [lock, unlock]

/-- The path on which `ExitAllowed` returns false. -/
theorem Transition_exit_refused {S W : Type} (β : State S W) (s : StateMachine S)
    (A : S) (d : Option S) (wd : World S W) (w1 : W)
    (hfree : s.mutex = false) (hact : s.activeState = some A)
    (hx : β.ExitAllowed A d (some (lock s)) wd.app = .ret false w1) :
    Transition β s d wd = .ret (some Error.ErrTransitionDenied)
      ⟨s, ⟨w1, wd.log ++ [⟨Call.ExitAllowed A d, some (lock s)⟩]⟩⟩ := by
  have hact1 : (lock s).activeState = some A := by simpa [lock] using hact
  simp [Transition, hfree, hact1, callExitAllowed, hx, unlock_lock s hfree]

/-- The path on which `ExitAllowed` returns true and `EnterAllowed` returns false. -/
theorem Transition_enter_refused {S W : Type} (β : State S W) (s : StateMachine S)
    (A B : S) (wd : World S W) (w1 w2 : W)
    (hfree : s.mutex = false) (hact : s.activeState = some A)
    (hx : β.ExitAllowed A (some B) (some (lock s)) wd.app = .ret true w1)
    (he : β.EnterAllowed B (some A) (some (lock s)) w1 = .ret false w2) :
    Transition β s (some B) wd = .ret (some Error.ErrTransitionDenied)
      ⟨s, ⟨w2, wd.log ++ [⟨Call.ExitAllowed A (some B), some (lock s)⟩,
        ⟨Call.EnterAllowed B (some A), some (lock s)⟩]⟩⟩ := by
  have hact1 : (lock s).activeState = some A := by simpa [lock] using hact
  simp [Transition, hfree, hact1, callExitAllowed, hx, callEnterAllowed, he,
    unlock_lock s hfree]

/-- The path on which both predicates return true and both hooks return. -/
theorem Transition_accepted {S W : Type} (β : State S W) (s : StateMachine S)
    (A B : S) (wd : World S W) (w1 w2 w3 w4 : W)
    (hfree : s.mutex = false) (hact : s.activeState = some A)
    (hx : β.ExitAllowed A (some B) (some (lock s)) wd.app = .ret true w1)
    (he : β.EnterAllowed B (some A) (some (lock s)) w1 = .ret true w2)
    (hX : β.Exit A (some (lock s)) w2 = .ret () w3)
    (hN : β.Enter B (some (lock s)) w3 = .ret () w4) :
    Transition β s (some B) wd = .ret none
      ⟨⟨some B, false⟩, ⟨w4, wd.log ++ [⟨Call.ExitAllowed A (some B), some (lock s)⟩,
        ⟨Call.EnterAllowed B (some A), some (lock s)⟩, ⟨Call.Exit A, some (lock s)⟩,
        ⟨Call.Enter B, some (lock s)⟩]⟩⟩ := by
  have hact1 : (lock s).activeState = some A := by simpa [lock] using hact
  simp [Transition, hfree, hact1, callExitAllowed, hx, callEnterAllowed, he, callExit, hX,
    callEnter, hN]
  rfl

/-- Every return of `Transition` went along one of the three paths above; in
particular the mutex was free and the active state was not nil. -/
theorem Transition_ret_cases {S W : Type} (β : State S W) (s : StateMachine S)
    (d : Option S) (wd : World S W) (err : Option Error) (c : Cfg S W)
    (h : Transition β s d wd = .ret err c) :
    s.mutex = false ∧ ∃ A, s.activeState = some A ∧
      ((∃ w1, β.ExitAllowed A d (some (lock s)) wd.app = .ret false w1 ∧
          err = some Error.ErrTransitionDenied ∧
          c = ⟨s, ⟨w1, wd.log ++ [⟨Call.ExitAllowed A d, some (lock s)⟩]⟩⟩) ∨
       (∃ B w1 w2, d = some B ∧
          β.ExitAllowed A (some B) (some (lock s)) wd.app = .ret true w1 ∧
          β.EnterAllowed B (some A) (some (lock s)) w1 = .ret false w2 ∧
          err = some Error.ErrTransitionDenied ∧
          c = ⟨s, ⟨w2, wd.log ++ [⟨Call.ExitAllowed A (some B), some (lock s)⟩,
            ⟨Call.EnterAllowed B (some A), some (lock s)⟩]⟩⟩) ∨
       (∃ B w1 w2 w3 w4, d = some B ∧
          β.ExitAllowed A (some B) (some (lock s)) wd.app = .ret true w1 ∧
          β.EnterAllowed B (some A) (some (lock s)) w1 = .ret true w2 ∧
          β.Exit A (some (lock s)) w2 = .ret () w3 ∧
          β.Enter B (some (lock s)) w3 = .ret () w4 ∧
          err = none ∧
          c = ⟨⟨some B, false⟩, ⟨w4, wd.log ++ [⟨Call.ExitAllowed A (some B), some (lock s)⟩,
            ⟨Call.EnterAllowed B (some A), some (lock s)⟩, ⟨Call.Exit A, some (lock s)⟩,
            ⟨Call.Enter B, some (lock s)⟩]⟩⟩)) := by
  have hfree : s.mutex = false := by
    cases hm : s.mutex with
    | false => rfl
    | true => simp [Transition, hm] at h
  refine ⟨hfree, ?_⟩
  cases hact : s.activeState with
  | none =>
    have hact1 : (lock s).activeState = none := by simpa [lock] using hact
    simp [Transition, hfree, hact1, callExitAllowed] at h
  | some A =>
    have hact1 : (lock s).activeState = some A := by simpa [lock] using hact
    refine ⟨A, rfl, ?_⟩
    cases hx : β.ExitAllowed A d (some (lock s)) wd.app with
    | hang => simp [Transition, hfree, hact1, callExitAllowed, hx] at h
    | panic w1 => simp [Transition, hfree, hact1, callExitAllowed, hx] at h
    | ret x w1 =>
      cases x with
      | false =>
        rw [Transition_exit_refused β s A d wd w1 hfree hact hx] at h
        simp only [Outcome.ret.injEq] at h
        exact Or.inl ⟨w1, rfl, h.1.symm, h.2.symm⟩
      | true =>
        cases d with
        | none => simp [Transition, hfree, hact1, callExitAllowed, hx, callEnterAllowed] at h
        | some B =>
          cases he : β.EnterAllowed B (some A) (some (lock s)) w1 with
          | hang =>
            simp [Transition, hfree, hact1, callExitAllowed, hx, callEnterAllowed, he] at h
          | panic w2 =>
            simp [Transition, hfree, hact1, callExitAllowed, hx, callEnterAllowed, he] at h
          | ret e w2 =>
            cases e with
            | false =>
              rw [Transition_enter_refused β s A B wd w1 w2 hfree hact hx he] at h
              simp only [Outcome.ret.injEq] at h
              exact Or.inr (Or.inl ⟨B, w1, w2, rfl, hx, he, h.1.symm, h.2.symm⟩)
            | true =>
              cases hX : β.Exit A (some (lock s)) w2 with
              | hang =>
                simp [Transition, hfree, hact1, callExitAllowed, hx, callEnterAllowed, he,
                  callExit, hX] at h
              | panic w3 =>
                simp [Transition, hfree, hact1, callExitAllowed, hx, callEnterAllowed, he,
                  callExit, hX] at h
              | ret u w3 =>
                cases hN : β.Enter B (some (lock s)) w3 with
                | hang =>
                  simp [Transition, hfree, hact1, callExitAllowed, hx, callEnterAllowed, he,
                    callExit, hX, callEnter, hN] at h
                | panic w4 =>
                  simp [Transition, hfree, hact1, callExitAllowed, hx, callEnterAllowed, he,
                    callExit, hX, callEnter, hN] at h
                | ret v w4 =>
                  rw [Transition_accepted β s A B wd w1 w2 w3 w4 hfree hact hx he hX hN] at h
                  simp only [Outcome.ret.injEq] at h
                  exact Or.inr (Or.inr ⟨B, w1, w2, w3, w4, rfl, hx, he, hX, hN,
                    h.1.symm, h.2.symm⟩)

/-! ## Transition: the decision -/

/-- C1. For a machine with active state `A` (outside any call) and a non-nil
destination `B`, where `A.ExitAllowed(B)` returns `x`, `B.EnterAllowed(A)` returns
`e`, and the two hooks return when they are reached: `Transition(B)` returns, the
returned error is nil exactly when `x` and `e` are both true, and otherwise it is
`ErrTransitionDenied`. The predicate calls made are `A.ExitAllowed(B)` and then
(when that returned true) `B.EnterAllowed(A)`. -/
theorem transition_nil_iff_both_allowed {S W : Type} (β : State S W) (s : StateMachine S)
    (A B : S) (wd : World S W) (x e : Bool) (w1 w2 : W)
    (hfree : s.mutex = false) (hact : s.activeState = some A)
    (hx : β.ExitAllowed A (some B) (some (lock s)) wd.app = .ret x w1)
    (he : β.EnterAllowed B (some A) (some (lock s)) w1 = .ret e w2)
    (hhooks : x = true → e = true → ∃ w3 w4,
      β.Exit A (some (lock s)) w2 = .ret () w3 ∧ β.Enter B (some (lock s)) w3 = .ret () w4) :
    ∃ err c evs, Transition β s (some B) wd = .ret err c ∧
      (err = none ↔ x = true ∧ e = true) ∧
      (err ≠ none → err = some Error.ErrTransitionDenied) ∧
      c.world.log = wd.log ++ evs ∧
      predicateTrace evs =
        if x then [Call.ExitAllowed A (some B), Call.EnterAllowed B (some A)]
        else [Call.ExitAllowed A (some B)] := by
  cases x with
  | false =>
    exact ⟨_, _, _, Transition_exit_refused β s A (some B) wd w1 hfree hact hx,
      by simp, by simp, rfl, by simp [predicateTrace, Call.isHook]⟩
  | true =>
    cases e with
    | false =>
      exact ⟨_, _, _, Transition_enter_refused β s A B wd w1 w2 hfree hact hx he,
        by simp, by simp, rfl, by simp [predicateTrace, Call.isHook]⟩
    | true =>
      obtain ⟨w3, w4, hX, hN⟩ := hhooks rfl rfl
      exact ⟨_, _, _, Transition_accepted β s A B wd w1 w2 w3 w4 hfree hact hx he hX hN,
        by simp, by simp, rfl, by simp [predicateTrace, Call.isHook]⟩

/-- C1 at the tests' happy pair: from `source` to `destination` (both
`stateAllAllowed`) both predicates return true and the returned error is nil. -/
theorem transition_nil_iff_both_allowed_witness :
    ∃ err c evs, Transition testStates (machineAt .source) (some .destination) testWorld
        = .ret err c ∧
      (err = none ↔ true = true ∧ true = true) ∧
      (err ≠ none → err = some Error.ErrTransitionDenied) ∧
      c.world.log = testWorld.log ++ evs ∧
      predicateTrace evs =
        if true then [Call.ExitAllowed TestRef.source (some .destination),
          Call.EnterAllowed TestRef.destination (some .source)]
        else [Call.ExitAllowed TestRef.source (some .destination)] :=
  transition_nil_iff_both_allowed testStates (machineAt .source) .source .destination testWorld
    true true testWorld.app testWorld.app rfl rfl rfl rfl (fun _ _ => ⟨_, _, rfl, rfl⟩)

/-! ## Transition: the three outcomes -/

/-- C2. For a machine with active state `A` and a destination `B` such that
`A.ExitAllowed(B)` and `B.EnterAllowed(A)` return true (and the two hooks return):
`Transition(B)` returns nil, `ActiveState()` is then `B`, and the hooks called by
the call are exactly `A.Exit()` followed by `B.Enter()`. -/
theorem transition_allowed_exits_then_enters {S W : Type} (β : State S W)
    (s : StateMachine S) (A B : S) (wd : World S W) (w1 w2 w3 w4 : W)
    (hfree : s.mutex = false) (hact : s.activeState = some A)
    (hx : β.ExitAllowed A (some B) (some (lock s)) wd.app = .ret true w1)
    (he : β.EnterAllowed B (some A) (some (lock s)) w1 = .ret true w2)
    (hX : β.Exit A (some (lock s)) w2 = .ret () w3)
    (hN : β.Enter B (some (lock s)) w3 = .ret () w4) :
    ∃ c evs, Transition β s (some B) wd = .ret none c ∧
      ActiveState c.machine = some B ∧
      c.world.log = wd.log ++ evs ∧
      hookTrace evs = [Call.Exit A, Call.Enter B] :=
  ⟨_, _, Transition_accepted β s A B wd w1 w2 w3 w4 hfree hact hx he hX hN, rfl, rfl,
    by simp [hookTrace, Call.isHook]⟩

/-- C2 on `TestTransitionHappy`: the machine moves from `source` to
`destination`, `source.Exited` and `destination.Entered` are set. -/
theorem transition_allowed_exits_then_enters_witness :
    ∃ c evs, Transition testStates (machineAt .source) (some .destination) testWorld
        = .ret none c ∧
      ActiveState c.machine = some TestRef.destination ∧
      c.world.log = testWorld.log ++ evs ∧
      hookTrace evs = [Call.Exit TestRef.source, Call.Enter TestRef.destination] :=
  transition_allowed_exits_then_enters testStates (machineAt .source) .source .destination
    testWorld testWorld.app testWorld.app ⟨⟨false, true⟩, ⟨false, false⟩⟩
    ⟨⟨false, true⟩, ⟨true, false⟩⟩ rfl rfl rfl rfl rfl rfl

/-- C3. For a machine with active state `A` and a destination `B` such that
`A.ExitAllowed(B)` returns false: `Transition(B)` returns `ErrTransitionDenied`,
`ActiveState()` is still `A`, and the call invokes no hook (neither `B.Enter()`
nor `A.Exit()`). -/
theorem exit_refused_is_denied {S W : Type} (β : State S W)
    (s : StateMachine S) (A B : S) (wd : World S W) (w1 : W)
    (hfree : s.mutex = false) (hact : s.activeState = some A)
    (hx : β.ExitAllowed A (some B) (some (lock s)) wd.app = .ret false w1) :
    ∃ c evs, Transition β s (some B) wd = .ret (some Error.ErrTransitionDenied) c ∧
      ActiveState c.machine = some A ∧
      c.world.log = wd.log ++ evs ∧
      hookTrace evs = [] :=
  ⟨_, _, Transition_exit_refused β s A (some B) wd w1 hfree hact hx, hact, rfl,
    by simp [hookTrace, Call.isHook]⟩

/-- C3 on `TestTransitionExitNotAllowed`. -/
theorem exit_refused_is_denied_witness :
    ∃ c evs, Transition testStates (machineAt .exitNotAllowed) (some .destination) testWorld
        = .ret (some Error.ErrTransitionDenied) c ∧
      ActiveState c.machine = some TestRef.exitNotAllowed ∧
      c.world.log = testWorld.log ++ evs ∧
      hookTrace evs = [] :=
  exit_refused_is_denied testStates (machineAt .exitNotAllowed) .exitNotAllowed .destination
    testWorld testWorld.app rfl rfl rfl

/-- C4. For a machine with active state `A` and a destination `B` such that
`A.ExitAllowed(B)` returns true and `B.EnterAllowed(A)` returns false:
`Transition(B)` returns `ErrTransitionDenied`, `ActiveState()` is still `A`, and
the call invokes no hook (neither `A.Exit()` nor `B.Enter()`). -/
theorem enter_refused_is_denied {S W : Type} (β : State S W)
    (s : StateMachine S) (A B : S) (wd : World S W) (w1 w2 : W)
    (hfree : s.mutex = false) (hact : s.activeState = some A)
    (hx : β.ExitAllowed A (some B) (some (lock s)) wd.app = .ret true w1)
    (he : β.EnterAllowed B (some A) (some (lock s)) w1 = .ret false w2) :
    ∃ c evs, Transition β s (some B) wd = .ret (some Error.ErrTransitionDenied) c ∧
      ActiveState c.machine = some A ∧
      c.world.log = wd.log ++ evs ∧
      hookTrace evs = [] :=
  ⟨_, _, Transition_enter_refused β s A B wd w1 w2 hfree hact hx he, hact, rfl,
    by simp [hookTrace, Call.isHook]⟩

/-- C4 on `TestTransitionEnterNotAllowed`. -/
theorem enter_refused_is_denied_witness :
    ∃ c evs, Transition testStates (machineAt .source) (some .enterNotAllowed) testWorld
        = .ret (some Error.ErrTransitionDenied) c ∧
      ActiveState c.machine = some TestRef.source ∧
      c.world.log = testWorld.log ++ evs ∧
      hookTrace evs = [] :=
  enter_refused_is_denied testStates (machineAt .source) .source .enterNotAllowed
    testWorld testWorld.app testWorld.app rfl rfl rfl rfl

/-- C5. Whenever `Transition` returns `ErrTransitionDenied`, for any machine and
any destination (nil included), the machine is exactly as before the call, so
`ActiveState()` is unchanged; the call invoked no hook; and for every hook call
`k` (an `Enter` or `Exit` of any state) the number of times `k` was made is the
same after the call as before it. -/
theorem denied_transition_is_atomic {S W : Type} [DecidableEq S] (β : State S W)
    (s : StateMachine S) (d : Option S) (wd : World S W) (c : Cfg S W)
    (h : Transition β s d wd = .ret (some Error.ErrTransitionDenied) c) :
    c.machine = s ∧ ActiveState c.machine = ActiveState s ∧
      ∃ evs, c.world.log = wd.log ++ evs ∧ hookTrace evs = [] ∧
        ∀ k : Call S, k.isHook = true →
          (c.world.log.map (fun e => e.call)).count k
            = (wd.log.map (fun e => e.call)).count k := by
  obtain ⟨_, A, _, hcase⟩ := Transition_ret_cases β s d wd _ c h
  rcases hcase with ⟨w1, _, _, hc⟩ | ⟨B, w1, w2, _, _, _, _, hc⟩ |
    ⟨B, w1, w2, w3, w4, _, _, _, _, _, herr, _⟩
  · subst hc
    refine ⟨rfl, rfl, _, rfl, by simp [hookTrace, Call.isHook], ?_⟩
    intro k hk
    cases k <;> simp_all [Call.isHook]
  · subst hc
    refine ⟨rfl, rfl, _, rfl, by simp [hookTrace, Call.isHook], ?_⟩
    intro k hk
    cases k <;> simp_all [Call.isHook]
  · cases herr

/-- C5 at a nil destination refused by `stateExitNotAllowed`: the call returns
`ErrTransitionDenied` with `refusedNilCfg`, whose machine is the one before. -/
theorem denied_transition_is_atomic_witness :
    Transition testStates (machineAt .exitNotAllowed) none testWorld
        = .ret (some Error.ErrTransitionDenied) refusedNilCfg ∧
      refusedNilCfg.machine = machineAt .exitNotAllowed ∧
      ActiveState refusedNilCfg.machine = ActiveState (machineAt .exitNotAllowed) :=
  ⟨rfl,
    (denied_transition_is_atomic testStates (machineAt .exitNotAllowed) none testWorld
      refusedNilCfg rfl).1,
    (denied_transition_is_atomic testStates (machineAt .exitNotAllowed) none testWorld
      refusedNilCfg rfl).2.1⟩

/-! ## Construction -/

/-- C6. For a non-nil state `i` whose `EnterAllowed(i)` returns true (and whose
`Enter()` returns): `NewStateMachine(i)` returns a machine and a nil error,
`ActiveState()` of that machine is `i`, and the calls made during construction
are exactly `i.EnterAllowed(i)` followed by one `i.Enter()`; `i.Exit()` is not
called. -/
theorem new_machine_enters_initial_state {S W : Type} (β : State S W) (i : S)
    (wd : World S W) (w1 w2 : W)
    (he : β.EnterAllowed i (some i) none wd.app = .ret true w1)
    (hN : β.Enter i none w1 = .ret () w2) :
    ∃ m wd1 evs, NewStateMachine β (some i) wd = .ret (some m, none) wd1 ∧
      ActiveState m = some i ∧
      wd1.log = wd.log ++ evs ∧
      evs.map (fun e => e.call) = [Call.EnterAllowed i (some i), Call.Enter i] ∧
      hookTrace evs = [Call.Enter i] := by
  refine ⟨⟨some i, false⟩, ⟨w2, wd.log ++ [⟨Call.EnterAllowed i (some i), none⟩,
    ⟨Call.Enter i, none⟩]⟩, _, ?_, rfl, rfl, by simp, by simp [hookTrace, Call.isHook]⟩
  simp [NewStateMachine, callEnterAllowed, he, callEnter, hN]

/-- C6 on `TestNewStateMachineHappy`. -/
theorem new_machine_enters_initial_state_witness :
    ∃ m wd1 evs, NewStateMachine testStates (some .source) testWorld
        = .ret (some m, none) wd1 ∧
      ActiveState m = some TestRef.source ∧
      wd1.log = testWorld.log ++ evs ∧
      evs.map (fun e => e.call)
        = [Call.EnterAllowed TestRef.source (some .source), Call.Enter .source] ∧
      hookTrace evs = [Call.Enter TestRef.source] :=
  new_machine_enters_initial_state testStates .source testWorld testWorld.app
    sourceEnteredWorld.app rfl rfl

/-- C7. For a non-nil state `i` whose `EnterAllowed(i)` returns false:
`NewStateMachine(i)` returns no machine and `ErrUnusableInitialState`, and the
only call made is that `i.EnterAllowed(i)`: no hook of `i` is called. -/
theorem new_machine_refused_is_unusable {S W : Type} (β : State S W) (i : S)
    (wd : World S W) (w1 : W)
    (he : β.EnterAllowed i (some i) none wd.app = .ret false w1) :
    ∃ wd1 evs, NewStateMachine β (some i) wd
        = .ret (none, some Error.ErrUnusableInitialState) wd1 ∧
      wd1.log = wd.log ++ evs ∧
      evs.map (fun e => e.call) = [Call.EnterAllowed i (some i)] ∧
      hookTrace evs = [] := by
  refine ⟨⟨w1, wd.log ++ [⟨Call.EnterAllowed i (some i), none⟩]⟩, _, ?_, rfl, by simp,
    by simp [hookTrace, Call.isHook]⟩
  simp [NewStateMachine, callEnterAllowed, he]

/-- C7 on `TestNewStateMachineUnusableState`. -/
theorem new_machine_refused_is_unusable_witness :
    ∃ wd1 evs, NewStateMachine testStates (some .enterNotAllowed) testWorld
        = .ret (none, some Error.ErrUnusableInitialState) wd1 ∧
      wd1.log = testWorld.log ++ evs ∧
      evs.map (fun e => e.call)
        = [Call.EnterAllowed TestRef.enterNotAllowed (some .enterNotAllowed)] ∧
      hookTrace evs = [] :=
  new_machine_refused_is_unusable testStates .enterNotAllowed testWorld testWorld.app rfl

/-- C8. `NewStateMachine(nil)` returns no machine and `ErrNilInitialState`,
whatever the states do, and leaves the world as it was: nothing is logged, so
no predicate and no hook was called. -/
theorem new_machine_nil_is_refused {S W : Type} (β : State S W) (wd : World S W) :
    NewStateMachine β none wd = .ret (none, some Error.ErrNilInitialState) wd :=
  rfl

/-! ## The active state over a sequence of calls -/

/-- A machine returned by `NewStateMachine` holds the given initial state, which
is not nil, and a free mutex. -/
theorem NewStateMachine_machine {S W : Type} (β : State S W) (init : Option S)
    (wd wd0 : World S W) (m : StateMachine S) (err : Option Error)
    (h : NewStateMachine β init wd = .ret (some m, err) wd0) :
    ∃ i, init = some i ∧ m = ⟨some i, false⟩ ∧ err = none := by
  cases init with
  | none => simp [NewStateMachine] at h
  | some i =>
    refine ⟨i, rfl, ?_⟩
    unfold NewStateMachine at h
    simp only at h
    repeat' split at h
    all_goals simp_all

/-- A panic of `Transition` leaves the machine as it was, the mutex released. -/
theorem Transition_panic_machine {S W : Type} (β : State S W) (s : StateMachine S)
    (d : Option S) (wd : World S W) (c : Cfg S W)
    (h : Transition β s d wd = .panic c) : s.mutex = false ∧ c.machine = s := by
  have hfree : s.mutex = false := by
    cases hm : s.mutex with
    | false => rfl
    | true => simp [Transition, hm] at h
  refine ⟨hfree, ?_⟩
  have hu := unlock_lock s hfree
  unfold Transition at h
  simp only [hfree] at h
  repeat' split at h
  all_goals simp_all
  all_goals (rw [← h]; try exact hu)

/-- A call of `Transition` that ends, by return or by panic, on a machine whose
active state is not nil leaves a machine whose active state is not nil and whose
mutex is free. -/
theorem Transition_keeps_active {S W : Type} (β : State S W) (s : StateMachine S)
    (d : Option S) (wd : World S W) (c : Cfg S W)
    (hs : s.activeState ≠ none)
    (h : (Transition β s d wd).after = some c) :
    c.machine.activeState ≠ none ∧ c.machine.mutex = false := by
  cases hT : Transition β s d wd with
  | hang => simp [hT, Outcome.after] at h
  | panic c1 =>
    obtain ⟨hfree, hm⟩ := Transition_panic_machine β s d wd c1 hT
    simp only [hT, Outcome.after, Option.some.injEq] at h
    subst h
    rw [hm]
    exact ⟨hs, hfree⟩
  | ret err c1 =>
    simp only [hT, Outcome.after, Option.some.injEq] at h
    subst h
    obtain ⟨hfree, A, _, hcase⟩ := Transition_ret_cases β s d wd err c1 hT
    rcases hcase with ⟨w1, _, _, hc⟩ | ⟨B, w1, w2, _, _, _, _, hc⟩ |
      ⟨B, w1, w2, w3, w4, _, _, _, _, _, _, hc⟩
    · subst hc
      exact ⟨hs, hfree⟩
    · subst hc
      exact ⟨hs, hfree⟩
    · subst hc
      simp

/-- Over any sequence of requests, every call that ends leaves a non-nil active
state, provided the sequence starts from one. -/
theorem transitions_keep_active {S W : Type} (β : State S W) (qs : List (Request S W)) :
    ∀ c : Cfg S W, c.machine.activeState ≠ none →
      ∀ r ∈ transitions β c qs, ∀ c1, r.after = some c1 → c1.machine.activeState ≠ none := by
  induction qs with
  | nil =>
    intro c _ r hr
    simp [transitions] at hr
  | cons q qs ih =>
    intro c hc r hr c1 hc1
    unfold transitions at hr
    cases hT : Transition β c.machine q.destination ⟨q.env c.world.app, c.world.log⟩ with
    | hang =>
      simp only [hT, List.mem_singleton] at hr
      subst hr
      simp [Outcome.after] at hc1
    | panic c2 =>
      have hk := (Transition_keeps_active β c.machine q.destination _ c2 hc
        (by rw [hT]; rfl)).1
      simp only [hT, List.mem_cons] at hr
      rcases hr with hr | hr
      · subst hr
        simp only [Outcome.after, Option.some.injEq] at hc1
        subst hc1
        exact hk
      · exact ih c2 hk r hr c1 hc1
    | ret err c2 =>
      have hk := (Transition_keeps_active β c.machine q.destination _ c2 hc
        (by rw [hT]; rfl)).1
      simp only [hT, List.mem_cons] at hr
      rcases hr with hr | hr
      · subst hr
        simp only [Outcome.after, Option.some.injEq] at hc1
        subst hc1
        exact hk
      · exact ih c2 hk r hr c1 hc1

/-- C9. For every machine `m` returned by `NewStateMachine` and every finite
sequence of `Transition` requests with arbitrary destinations (nil included, and
whatever the application does to its data in between), `ActiveState()` is not nil
at the start and after each call that ends, whether it returned nil, returned
`ErrTransitionDenied`, or panicked. -/
theorem active_state_never_nil {S W : Type} (β : State S W) (init : Option S)
    (wd wd0 : World S W) (m : StateMachine S) (err : Option Error)
    (hnew : NewStateMachine β init wd = .ret (some m, err) wd0)
    (qs : List (Request S W)) :
    ActiveState m ≠ none ∧
      ∀ r ∈ transitions β ⟨m, wd0⟩ qs, ∀ c, r.after = some c → ActiveState c.machine ≠ none := by
  obtain ⟨i, _, hm, _⟩ := NewStateMachine_machine β init wd wd0 m err hnew
  have h0 : m.activeState ≠ none := by simp [hm]
  exact ⟨h0, transitions_keep_active β qs ⟨m, wd0⟩ h0⟩

/-- C9 on the machine of `TestNewStateMachineHappy` followed by `testRequests`:
an accepted transition, a nil destination (which panics), a denied one. -/
theorem active_state_never_nil_witness :
    ActiveState (machineAt .source) ≠ none ∧
      ∀ r ∈ transitions testStates ⟨machineAt .source, sourceEnteredWorld⟩ testRequests,
        ∀ c, r.after = some c → ActiveState c.machine ≠ none :=
  active_state_never_nil testStates (some .source) testWorld sourceEnteredWorld
    (machineAt .source) none rfl testRequests

/-! ## When the active state changes -/

/-- C10. In every `Transition(B)` from active state `A` that returns nil, the
last two calls made are `A.Exit()` and then `B.Enter()`, both made while the
machine `v` read through `ActiveState()` still gives `A`, both returned, no hook
was called before them, and the machine left by the call has active state `B`:
the field is written after `B.Enter()` has returned. -/
theorem active_state_written_after_hooks {S W : Type} (β : State S W)
    (s : StateMachine S) (A B : S) (wd : World S W) (c : Cfg S W)
    (hact : s.activeState = some A)
    (h : Transition β s (some B) wd = .ret none c) :
    ∃ v pre w2 w3,
      c.world.log = wd.log ++ pre ++ [⟨Call.Exit A, some v⟩, ⟨Call.Enter B, some v⟩] ∧
      hookTrace pre = [] ∧
      ActiveState v = some A ∧
      β.Exit A (some v) w2 = .ret () w3 ∧
      β.Enter B (some v) w3 = .ret () c.world.app ∧
      ActiveState c.machine = some B := by
  obtain ⟨_, A1, hA1, hcase⟩ := Transition_ret_cases β s (some B) wd none c h
  have hAA : A1 = A := by
    rw [hact] at hA1
    exact (Option.some.inj hA1).symm
  subst hAA
  rcases hcase with ⟨w1, _, herr, _⟩ | ⟨B1, w1, w2, _, _, _, herr, _⟩ |
    ⟨B1, w1, w2, w3, w4, hB, _, _, hX, hN, _, hc⟩
  · cases herr
  · cases herr
  · have hBB : B1 = B := (Option.some.inj hB).symm
    subst hBB
    subst hc
    refine ⟨lock s, [⟨Call.ExitAllowed A1 (some B1), some (lock s)⟩,
      ⟨Call.EnterAllowed B1 (some A1), some (lock s)⟩], w2, w3, by simp,
      by simp [hookTrace, Call.isHook], by simpa [ActiveState, lock] using hact, hX, hN, rfl⟩

/-- C10 on `TestTransitionHappy`: the call returns nil with `happyCfg`, whose
last two log entries are the two hooks, both seeing `source` as active. -/
theorem active_state_written_after_hooks_witness :
    Transition testStates (machineAt .source) (some .destination) testWorld
        = .ret none happyCfg ∧
      ∃ v pre w2 w3,
        happyCfg.world.log = testWorld.log ++ pre ++
          [⟨Call.Exit .source, some v⟩, ⟨Call.Enter .destination, some v⟩] ∧
        hookTrace pre = [] ∧
        ActiveState v = some TestRef.source ∧
        testStates.Exit .source (some v) w2 = .ret () w3 ∧
        testStates.Enter .destination (some v) w3 = .ret () happyCfg.world.app ∧
        ActiveState happyCfg.machine = some TestRef.destination :=
  ⟨rfl, active_state_written_after_hooks testStates (machineAt .source) .source .destination
    testWorld happyCfg rfl rfl⟩

/-! ## Self-transition -/

/-- C11. `Transition(A)` on a machine whose active state is already `A` goes the
ordinary way. With `A.ExitAllowed(A)` returning `x` and `A.EnterAllowed(A)`
returning `e` (and the hooks returning when reached), the call returns and
`ActiveState()` is still `A`; when both are true it returns nil after exactly
`A.Exit()` then `A.Enter()`; when either is false it returns
`ErrTransitionDenied` and no hook is called. -/
theorem self_transition_is_ordinary {S W : Type} (β : State S W) (s : StateMachine S)
    (A : S) (wd : World S W) (x e : Bool) (w1 w2 : W)
    (hfree : s.mutex = false) (hact : s.activeState = some A)
    (hx : β.ExitAllowed A (some A) (some (lock s)) wd.app = .ret x w1)
    (he : β.EnterAllowed A (some A) (some (lock s)) w1 = .ret e w2)
    (hhooks : x = true → e = true → ∃ w3 w4,
      β.Exit A (some (lock s)) w2 = .ret () w3 ∧ β.Enter A (some (lock s)) w3 = .ret () w4) :
    ∃ err c evs, Transition β s (some A) wd = .ret err c ∧
      ActiveState c.machine = some A ∧
      c.world.log = wd.log ++ evs ∧
      (x = true ∧ e = true → err = none ∧ hookTrace evs = [Call.Exit A, Call.Enter A]) ∧
      (¬ (x = true ∧ e = true) →
        err = some Error.ErrTransitionDenied ∧ hookTrace evs = []) := by
  cases x with
  | false =>
    exact ⟨_, _, _, Transition_exit_refused β s A (some A) wd w1 hfree hact hx, hact, rfl,
      by simp, by simp [hookTrace, Call.isHook]⟩
  | true =>
    cases e with
    | false =>
      exact ⟨_, _, _, Transition_enter_refused β s A A wd w1 w2 hfree hact hx he, hact, rfl,
        by simp, by simp [hookTrace, Call.isHook]⟩
    | true =>
      obtain ⟨w3, w4, hX, hN⟩ := hhooks rfl rfl
      exact ⟨_, _, _, Transition_accepted β s A A wd w1 w2 w3 w4 hfree hact hx he hX hN, rfl,
        rfl, by simp [hookTrace, Call.isHook], by simp⟩

/-- C11 on a `stateAllAllowed` asked to move to itself: accepted, `Exit` then
`Enter` on that same object. -/
theorem self_transition_is_ordinary_witness :
    ∃ err c evs, Transition testStates (machineAt .source) (some .source) testWorld
        = .ret err c ∧
      ActiveState c.machine = some TestRef.source ∧
      c.world.log = testWorld.log ++ evs ∧
      (true = true ∧ true = true →
        err = none ∧ hookTrace evs = [Call.Exit TestRef.source, Call.Enter TestRef.source]) ∧
      (¬ (true = true ∧ true = true) →
        err = some Error.ErrTransitionDenied ∧ hookTrace evs = []) :=
  self_transition_is_ordinary testStates (machineAt .source) .source testWorld true true
    testWorld.app testWorld.app rfl rfl rfl rfl (fun _ _ => ⟨_, _, rfl, rfl⟩)

/-! ## `EmptyState` allows and no-ops everything -/

/-- C12. For `EmptyState`: `EnterAllowed` and `ExitAllowed` return true for every
receiver and argument and leave the data alone, `Enter` and `Exit` return and
leave the data alone; `NewStateMachine` on an `EmptyState` returns a machine
holding it and a nil error; and `Transition` between any two `EmptyState` values
returns nil and makes the destination active. -/
theorem empty_state_allows_everything (S W : Type) :
    (∀ r a v (w : W), (EmptyState S W).EnterAllowed r a v w = .ret true w) ∧
    (∀ r a v (w : W), (EmptyState S W).ExitAllowed r a v w = .ret true w) ∧
    (∀ r v (w : W), (EmptyState S W).Enter r v w = .ret () w) ∧
    (∀ r v (w : W), (EmptyState S W).Exit r v w = .ret () w) ∧
    (∀ (i : S) (wd : World S W),
      NewStateMachine (EmptyState S W) (some i) wd
        = .ret (some ⟨some i, false⟩, none)
          ⟨wd.app, wd.log ++ [⟨Call.EnterAllowed i (some i), none⟩, ⟨Call.Enter i, none⟩]⟩) ∧
    (∀ (A B : S) (wd : World S W),
      Transition (EmptyState S W) ⟨some A, false⟩ (some B) wd
        = .ret none ⟨⟨some B, false⟩, ⟨wd.app, wd.log ++
          [⟨Call.ExitAllowed A (some B), some ⟨some A, true⟩⟩,
            ⟨Call.EnterAllowed B (some A), some ⟨some A, true⟩⟩,
            ⟨Call.Exit A, some ⟨some A, true⟩⟩,
            ⟨Call.Enter B, some ⟨some A, true⟩⟩]⟩⟩) := by
  refine ⟨fun _ _ _ _ => rfl, fun _ _ _ _ => rfl, fun _ _ _ => rfl, fun _ _ _ => rfl, ?_, ?_⟩
  · intro i wd
    simp [NewStateMachine, callEnterAllowed, callEnter, EmptyState]
  · intro A B wd
    exact Transition_accepted (EmptyState S W) ⟨some A, false⟩ A B wd wd.app wd.app wd.app
      wd.app rfl rfl rfl rfl rfl rfl

/-! ## Short-circuit against the specification's algorithm -/

theorem hookTrace_append {S : Type} (xs ys : List (Event S)) :
    hookTrace (xs ++ ys) = hookTrace xs ++ hookTrace ys := by
  simp [hookTrace]

/-- C13. When both predicates are side-effect-free, `Transition`, which skips
`destination.EnterAllowed` when `current.ExitAllowed` returned false, and the
specification's algorithm, which evaluates both before combining them, agree for
every machine, every non-nil destination and every world on how the call ends,
on the returned error, on the machine left (so on `ActiveState()`), on the
application data and on the hooks called. -/
theorem short_circuit_agrees_with_reference {S W : Type} (β : State S W)
    (hpure : PurePredicates β) (s : StateMachine S) (B : S) (wd : World S W) :
    observable (Transition β s (some B) wd)
      = observable (referenceTransition β s (some B) wd) := by
  cases hm : s.mutex with
  | true => simp [Transition, referenceTransition, hm]
  | false =>
    cases hact : s.activeState with
    | none =>
      have hact1 : (lock s).activeState = none := by simpa [lock] using hact
      simp [Transition, referenceTransition, hm, hact1, callExitAllowed]
    | some A =>
      have hact1 : (lock s).activeState = some A := by simpa [lock] using hact
      obtain ⟨x, hx⟩ := (hpure A (some B) (some (lock s)) wd.app).2
      obtain ⟨e, he⟩ := (hpure B (some A) (some (lock s)) wd.app).1
      cases x <;> cases e <;>
        simp [Transition, referenceTransition, hm, hact1, callExitAllowed, hx,
          callEnterAllowed, he, observable, hookTrace_append, hookTrace, Call.isHook]

/-- C13 on `TestTransitionExitNotAllowed`, where the skipped call would have
returned true. -/
theorem short_circuit_agrees_with_reference_witness :
    observable (Transition testStates (machineAt .exitNotAllowed) (some .destination) testWorld)
      = observable
          (referenceTransition testStates (machineAt .exitNotAllowed) (some .destination)
            testWorld) :=
  short_circuit_agrees_with_reference testStates
    (by intro r a v w; cases r <;> exact ⟨⟨_, rfl⟩, ⟨_, rfl⟩⟩)
    (machineAt .exitNotAllowed) .destination testWorld

/-- Outside C13: a nil destination has no predicate to evaluate. When step 1
returns false, `Transition(nil)` returns `ErrTransitionDenied`, whereas an
algorithm that goes on to step 2 dereferences nil and panics. -/
theorem reference_differs_on_nil_destination :
    Transition testStates (machineAt .exitNotAllowed) none testWorld
        = .ret (some Error.ErrTransitionDenied) refusedNilCfg ∧
      referenceTransition testStates (machineAt .exitNotAllowed) none testWorld
        = .panic refusedNilCfg := by
  decide

/-! ## The Idle / Running example -/

/-- The guard of `RunningState` holds exactly when the clock is at least five
seconds past `entered`; saturation of the duration does not change that. -/
theorem runCompleted_iff (w : SimpleData) :
    runCompleted w = true ↔ w.entered + RunningStateTime ≤ w.now := by
  simp only [runCompleted, Since, RunningStateTime, Second, maxDuration, minDuration,
    decide_eq_true_eq]
  split_ifs <;> omega

/-- C14, as the code has it. With the clock at `now` and `runningState.entered`
at `entered` (zero until `runningState` is first entered):
`NewStateMachine(idleState)` succeeds; `Transition(runningState)` from
`idleState` returns nil when the clock is at least five seconds past `entered`,
with exactly `idleState.Exit()` then `runningState.Enter()` called, `entered` set
to the clock and `runningState` active; and it returns `ErrTransitionDenied`
otherwise, with no hook called and `idleState` still active. -/
theorem idle_to_running_by_clock (now entered : Int) (log : List (Event SimpleRef)) :
    NewStateMachine simpleStates (some .idleState) ⟨⟨now, entered⟩, log⟩
        = .ret (some idleMachine, none) ⟨⟨now, entered⟩, log ++
          [⟨Call.EnterAllowed .idleState (some .idleState), none⟩,
            ⟨Call.Enter .idleState, none⟩]⟩ ∧
      Transition simpleStates idleMachine (some .runningState) ⟨⟨now, entered⟩, log⟩
        = (if entered + RunningStateTime ≤ now then
            .ret none ⟨⟨some .runningState, false⟩, ⟨⟨now, now⟩, log ++ idleToRunningCalls⟩⟩
          else
            .ret (some Error.ErrTransitionDenied)
              ⟨idleMachine, ⟨⟨now, entered⟩, log ++ idleToRunningRefused⟩⟩) ∧
      hookTrace idleToRunningCalls
        = [Call.Exit SimpleRef.idleState, Call.Enter SimpleRef.runningState] ∧
      hookTrace idleToRunningRefused = [] := by
  refine ⟨?_, ?_, rfl, rfl⟩
  · simp [NewStateMachine, callEnterAllowed, callEnter, simpleStates, idleMachine]
  by_cases h : entered + RunningStateTime ≤ now
  · have hr : runCompleted ⟨now, entered⟩ = true := (runCompleted_iff ⟨now, entered⟩).2 h
    rw [if_pos h]
    exact Transition_accepted simpleStates idleMachine .idleState .runningState
      ⟨⟨now, entered⟩, log⟩ ⟨now, entered⟩ ⟨now, entered⟩ ⟨now, entered⟩ ⟨now, now⟩ rfl rfl rfl
      (by simp [simpleStates, hr]) rfl rfl
  · have hr : runCompleted ⟨now, entered⟩ = false := by
      cases hc : runCompleted ⟨now, entered⟩ with
      | false => rfl
      | true => exact absurd ((runCompleted_iff ⟨now, entered⟩).1 hc) h
    rw [if_neg h]
    exact Transition_enter_refused simpleStates idleMachine .idleState .runningState
      ⟨⟨now, entered⟩, log⟩ ⟨now, entered⟩ ⟨now, entered⟩ rfl rfl rfl
      (by simp [simpleStates, hr])

/-- Against C14 as worded: a `runningState` never entered (`entered` is the zero
time) is not refused when `main` asks for it with the clock at a real date; the
call returns nil and `runningState` becomes active. -/
theorem never_entered_running_is_accepted :
    Transition simpleStates idleMachine (some .runningState) ⟨⟨clock2026, 0⟩, []⟩
        = .ret none ⟨⟨some .runningState, false⟩, ⟨⟨clock2026, clock2026⟩, idleToRunningCalls⟩⟩ ∧
      ¬ ∃ c, Transition simpleStates idleMachine (some .runningState) ⟨⟨clock2026, 0⟩, []⟩
        = .ret (some Error.ErrTransitionDenied) c := by
  have h : Transition simpleStates idleMachine (some .runningState) ⟨⟨clock2026, 0⟩, []⟩
      = .ret none ⟨⟨some .runningState, false⟩,
        ⟨⟨clock2026, clock2026⟩, idleToRunningCalls⟩⟩ := by
    decide
  refine ⟨h, ?_⟩
  rintro ⟨c, hc⟩
  rw [h] at hc
  cases hc

/-! ## Which predicates are evaluated -/

/-- The path on which both predicates return true and `Exit` panics. -/
theorem Transition_exit_panics {S W : Type} (β : State S W) (s : StateMachine S)
    (A B : S) (wd : World S W) (w1 w2 w3 : W)
    (hfree : s.mutex = false) (hact : s.activeState = some A)
    (hx : β.ExitAllowed A (some B) (some (lock s)) wd.app = .ret true w1)
    (he : β.EnterAllowed B (some A) (some (lock s)) w1 = .ret true w2)
    (hX : β.Exit A (some (lock s)) w2 = .panic w3) :
    Transition β s (some B) wd = .panic
      ⟨s, ⟨w3, wd.log ++ [⟨Call.ExitAllowed A (some B), some (lock s)⟩,
        ⟨Call.EnterAllowed B (some A), some (lock s)⟩, ⟨Call.Exit A, some (lock s)⟩]⟩⟩ := by
  have hact1 : (lock s).activeState = some A := by simpa [lock] using hact
  simp [Transition, hfree, hact1, callExitAllowed, hx, callEnterAllowed, he, callExit, hX,
    unlock_lock s hfree]

/-- The path on which both predicates return true, `Exit` returns and `Enter`
panics. -/
theorem Transition_enter_panics {S W : Type} (β : State S W) (s : StateMachine S)
    (A B : S) (wd : World S W) (w1 w2 w3 w4 : W)
    (hfree : s.mutex = false) (hact : s.activeState = some A)
    (hx : β.ExitAllowed A (some B) (some (lock s)) wd.app = .ret true w1)
    (he : β.EnterAllowed B (some A) (some (lock s)) w1 = .ret true w2)
    (hX : β.Exit A (some (lock s)) w2 = .ret () w3)
    (hN : β.Enter B (some (lock s)) w3 = .panic w4) :
    Transition β s (some B) wd = .panic
      ⟨s, ⟨w4, wd.log ++ [⟨Call.ExitAllowed A (some B), some (lock s)⟩,
        ⟨Call.EnterAllowed B (some A), some (lock s)⟩, ⟨Call.Exit A, some (lock s)⟩,
        ⟨Call.Enter B, some (lock s)⟩]⟩⟩ := by
  have hact1 : (lock s).activeState = some A := by simpa [lock] using hact
  simp [Transition, hfree, hact1, callExitAllowed, hx, callEnterAllowed, he, callExit, hX,
    callEnter, hN, unlock_lock s hfree]

/-- C16, as the code has it. When `A.ExitAllowed(B)` returns `x`, every call of
`Transition(B)` that ends (by return or by panic) has evaluated
`A.ExitAllowed(B)` first and once, and has evaluated `B.EnterAllowed(A)` (once,
after it) exactly when `x` is true: when `x` is false no `EnterAllowed` call is
made. -/
theorem enter_allowed_evaluated_iff_exit_allowed {S W : Type} (β : State S W)
    (s : StateMachine S) (A B : S) (wd : World S W) (x : Bool) (w1 : W) (c : Cfg S W)
    (hact : s.activeState = some A)
    (hx : β.ExitAllowed A (some B) (some (lock s)) wd.app = .ret x w1)
    (h : (Transition β s (some B) wd).after = some c) :
    ∃ evs, c.world.log = wd.log ++ evs ∧
      predicateTrace evs =
        if x then [Call.ExitAllowed A (some B), Call.EnterAllowed B (some A)]
        else [Call.ExitAllowed A (some B)] := by
  have hfree : s.mutex = false := by
    cases hm : s.mutex with
    | false => rfl
    | true => simp [Transition, hm, Outcome.after] at h
  have hact1 : (lock s).activeState = some A := by simpa [lock] using hact
  cases x with
  | false =>
    rw [Transition_exit_refused β s A (some B) wd w1 hfree hact hx] at h
    simp only [Outcome.after, Option.some.injEq] at h
    subst h
    exact ⟨_, rfl, by simp [predicateTrace, Call.isHook]⟩
  | true =>
    cases he : β.EnterAllowed B (some A) (some (lock s)) w1 with
    | hang =>
      simp [Transition, hfree, hact1, callExitAllowed, hx, callEnterAllowed, he,
        Outcome.after] at h
    | panic w2 =>
      simp [Transition, hfree, hact1, callExitAllowed, hx, callEnterAllowed, he,
        Outcome.after] at h
      subst h
      exact ⟨[⟨Call.ExitAllowed A (some B), some (lock s)⟩,
        ⟨Call.EnterAllowed B (some A), some (lock s)⟩], by simp,
        by simp [predicateTrace, Call.isHook]⟩
    | ret e w2 =>
      cases e with
      | false =>
        rw [Transition_enter_refused β s A B wd w1 w2 hfree hact hx he] at h
        simp only [Outcome.after, Option.some.injEq] at h
        subst h
        exact ⟨_, rfl, by simp [predicateTrace, Call.isHook]⟩
      | true =>
        cases hX : β.Exit A (some (lock s)) w2 with
        | hang =>
          simp [Transition, hfree, hact1, callExitAllowed, hx, callEnterAllowed, he,
            callExit, hX, Outcome.after] at h
        | panic w3 =>
          rw [Transition_exit_panics β s A B wd w1 w2 w3 hfree hact hx he hX] at h
          simp only [Outcome.after, Option.some.injEq] at h
          subst h
          exact ⟨_, rfl, by simp [predicateTrace, Call.isHook]⟩
        | ret u w3 =>
          cases hN : β.Enter B (some (lock s)) w3 with
          | hang =>
            simp [Transition, hfree, hact1, callExitAllowed, hx, callEnterAllowed, he,
              callExit, hX, callEnter, hN, Outcome.after] at h
          | panic w4 =>
            rw [Transition_enter_panics β s A B wd w1 w2 w3 w4 hfree hact hx he hX hN] at h
            simp only [Outcome.after, Option.some.injEq] at h
            subst h
            exact ⟨_, rfl, by simp [predicateTrace, Call.isHook]⟩
          | ret v w4 =>
            rw [Transition_accepted β s A B wd w1 w2 w3 w4 hfree hact hx he hX hN] at h
            simp only [Outcome.after, Option.some.injEq] at h
            subst h
            exact ⟨_, rfl, by simp [predicateTrace, Call.isHook]⟩

/-- C16 as amended, on `TestTransitionExitNotAllowed`: one predicate call. -/
theorem enter_allowed_evaluated_iff_exit_allowed_witness :
    ∃ evs, refusedByExitCfg.world.log = testWorld.log ++ evs ∧
      predicateTrace evs =
        if false then [Call.ExitAllowed TestRef.exitNotAllowed (some .destination),
          Call.EnterAllowed TestRef.destination (some .exitNotAllowed)]
        else [Call.ExitAllowed TestRef.exitNotAllowed (some .destination)] :=
  enter_allowed_evaluated_iff_exit_allowed testStates (machineAt .exitNotAllowed)
    .exitNotAllowed .destination testWorld false testWorld.app refusedByExitCfg rfl rfl rfl

/-- Against C16 as worded: in `TestTransitionExitNotAllowed` step 1 returns
false, the call returns `ErrTransitionDenied`, and `destination.EnterAllowed` has
not been evaluated: the log of the call holds the `ExitAllowed` call alone. -/
theorem enter_allowed_skipped_when_exit_refused :
    Transition testStates (machineAt .exitNotAllowed) (some .destination) testWorld
        = .ret (some Error.ErrTransitionDenied) refusedByExitCfg ∧
      refusedByExitCfg.world.log.map (fun e => e.call)
        = [Call.ExitAllowed TestRef.exitNotAllowed (some .destination)] ∧
      Call.EnterAllowed TestRef.destination (some .exitNotAllowed)
        ∉ refusedByExitCfg.world.log.map (fun e => e.call) := by
  decide

/-! ## A hook that panics -/

/-- C19. In a transition both predicates allow, if `A.Exit()` panics, or
`A.Exit()` returns and `B.Enter()` panics, then `Transition(B)` panics, the
machine is left with its mutex released and with `A` still active, and the hooks
called are `A.Exit()` alone in the first case and `A.Exit()` then `B.Enter()` in
the second: `ActiveState()` then reports `A` although its `Exit` has returned. -/
theorem hook_panic_leaves_active_state {S W : Type} (β : State S W) (s : StateMachine S)
    (A B : S) (wd : World S W) (w1 w2 w3 : W)
    (hfree : s.mutex = false) (hact : s.activeState = some A)
    (hx : β.ExitAllowed A (some B) (some (lock s)) wd.app = .ret true w1)
    (he : β.EnterAllowed B (some A) (some (lock s)) w1 = .ret true w2)
    (hfail : β.Exit A (some (lock s)) w2 = .panic w3 ∨
      ∃ w, β.Exit A (some (lock s)) w2 = .ret () w ∧ β.Enter B (some (lock s)) w = .panic w3) :
    ∃ c evs, Transition β s (some B) wd = .panic c ∧
      c.machine.mutex = false ∧
      ActiveState c.machine = some A ∧
      c.world.app = w3 ∧
      c.world.log = wd.log ++ evs ∧
      ((β.Exit A (some (lock s)) w2 = .panic w3 ∧ hookTrace evs = [Call.Exit A]) ∨
        ((∃ w, β.Exit A (some (lock s)) w2 = .ret () w) ∧
          hookTrace evs = [Call.Exit A, Call.Enter B])) := by
  rcases hfail with hX | ⟨w, hX, hN⟩
  · exact ⟨_, _, Transition_exit_panics β s A B wd w1 w2 w3 hfree hact hx he hX, hfree, hact,
      rfl, rfl, Or.inl ⟨hX, by simp [hookTrace, Call.isHook]⟩⟩
  · exact ⟨_, _, Transition_enter_panics β s A B wd w1 w2 w w3 hfree hact hx he hX hN, hfree,
      hact, rfl, rfl, Or.inr ⟨⟨w, hX⟩, by simp [hookTrace, Call.isHook]⟩⟩

/-- C19 on `failingHooks`, both ways. With `exitPanics` set, `A.Exit()` panics
and the data stay at 0; without it, `A.Exit()` returns (the data go from 0 to
1) and `B.Enter()` panics. Either way the machine still reports `A`. -/
theorem hook_panic_leaves_active_state_witness :
    (∃ c evs, Transition (failingHooks true) machineAtA (some .B) ⟨0, []⟩ = .panic c ∧
      c.machine.mutex = false ∧
      ActiveState c.machine = some HookRef.A ∧
      c.world.app = 0 ∧
      c.world.log = ([] : List (Event HookRef)) ++ evs ∧
      (((failingHooks true).Exit .A (some (lock machineAtA)) 0 = .panic 0 ∧
          hookTrace evs = [Call.Exit HookRef.A]) ∨
        ((∃ w, (failingHooks true).Exit .A (some (lock machineAtA)) 0 = .ret () w) ∧
          hookTrace evs = [Call.Exit HookRef.A, Call.Enter HookRef.B]))) ∧
    (∃ c evs, Transition (failingHooks false) machineAtA (some .B) ⟨0, []⟩ = .panic c ∧
      c.machine.mutex = false ∧
      ActiveState c.machine = some HookRef.A ∧
      c.world.app = 1 ∧
      c.world.log = ([] : List (Event HookRef)) ++ evs ∧
      (((failingHooks false).Exit .A (some (lock machineAtA)) 0 = .panic 1 ∧
          hookTrace evs = [Call.Exit HookRef.A]) ∨
        ((∃ w, (failingHooks false).Exit .A (some (lock machineAtA)) 0 = .ret () w) ∧
          hookTrace evs = [Call.Exit HookRef.A, Call.Enter HookRef.B]))) :=
  ⟨hook_panic_leaves_active_state (failingHooks true) machineAtA .A .B ⟨0, []⟩ 0 0 0
      rfl rfl rfl rfl (Or.inl rfl),
    hook_panic_leaves_active_state (failingHooks false) machineAtA .A .B ⟨0, []⟩ 0 0 1
      rfl rfl rfl rfl (Or.inr ⟨1, rfl, rfl⟩)⟩

/-! ## The active state after a sequence of requests -/

theorem lastAccepted_cons {S : Type} (s0 d : S) (err : Option Error)
    (l : List (S × Option Error)) :
    lastAccepted s0 ((d, err) :: l) = lastAccepted (if err.isNone then d else s0) l := by
  unfold lastAccepted
  rw [List.reverse_cons, List.find?_append]
  cases hf : List.find? (fun p : S × Option Error => p.2.isNone) l.reverse with
  | some p => simp
  | none =>
    cases err with
    | none => simp
    | some e => simp

/-- One request on pure predicates: the call returns, it leaves the machine free
at `foldStep`, and its error is nil exactly when both predicates hold. -/
theorem Transition_foldStep {S W : Type} (β : State S W) (px pe : S → S → Bool)
    (hpx : ∀ r a v w, β.ExitAllowed r (some a) v w = .ret (px r a) w)
    (hpe : ∀ r a v w, β.EnterAllowed r (some a) v w = .ret (pe r a) w)
    (hExit : ∀ r a v w, px r a = true → pe a r = true → ∃ w1, β.Exit r v w = .ret () w1)
    (hEnter : ∀ r a v w, px a r = true → pe r a = true → ∃ w1, β.Enter r v w = .ret () w1)
    (cur d : S) (wd : World S W) :
    ∃ err c1, Transition β ⟨some cur, false⟩ (some d) wd = .ret err c1 ∧
      c1.machine = ⟨some (foldStep px pe cur d), false⟩ ∧
      err.isNone = (px cur d && pe d cur) := by
  have hx := hpx cur d (some (lock ⟨some cur, false⟩)) wd.app
  have he := hpe d cur (some (lock ⟨some cur, false⟩)) wd.app
  cases hxv : px cur d with
  | false =>
    rw [hxv] at hx
    exact ⟨_, _, Transition_exit_refused β ⟨some cur, false⟩ cur (some d) wd wd.app rfl rfl hx,
      by simp [foldStep, hxv], by simp⟩
  | true =>
    rw [hxv] at hx
    cases hev : pe d cur with
    | false =>
      rw [hev] at he
      exact ⟨_, _, Transition_enter_refused β ⟨some cur, false⟩ cur d wd wd.app wd.app rfl rfl
        hx he, by simp [foldStep, hev], by simp⟩
    | true =>
      rw [hev] at he
      obtain ⟨w3, hX⟩ := hExit cur d (some (lock ⟨some cur, false⟩)) wd.app hxv hev
      obtain ⟨w4, hN⟩ := hEnter d cur (some (lock ⟨some cur, false⟩)) w3 hxv hev
      exact ⟨_, _, Transition_accepted β ⟨some cur, false⟩ cur d wd wd.app wd.app w3 w4 rfl rfl
        hx he hX hN, by simp [foldStep, hxv, hev], by simp⟩

/-- A sequence of requests on pure predicates, from any active state. -/
theorem returns_foldStep {S W : Type} (β : State S W) (px pe : S → S → Bool)
    (hpx : ∀ r a v w, β.ExitAllowed r (some a) v w = .ret (px r a) w)
    (hpe : ∀ r a v w, β.EnterAllowed r (some a) v w = .ret (pe r a) w)
    (hExit : ∀ r a v w, px r a = true → pe a r = true → ∃ w1, β.Exit r v w = .ret () w1)
    (hEnter : ∀ r a v w, px a r = true → pe r a = true → ∃ w1, β.Enter r v w = .ret () w1)
    (ds : List (S × (W → W))) :
    ∀ (cur : S) (wd : World S W),
      ∃ errs c, returns β ⟨⟨some cur, false⟩, wd⟩ (ds.map (fun d => ⟨some d.1, d.2⟩))
          = some (errs, c) ∧
        errs.length = ds.length ∧
        c.machine = ⟨some ((ds.map Prod.fst).foldl (foldStep px pe) cur), false⟩ ∧
        (ds.map Prod.fst).foldl (foldStep px pe) cur
          = lastAccepted cur ((ds.map Prod.fst).zip errs) := by
  induction ds with
  | nil =>
    intro cur wd
    exact ⟨[], _, rfl, rfl, rfl, rfl⟩
  | cons d ds ih =>
    intro cur wd
    obtain ⟨err, c1, hT, hm, herr⟩ :=
      Transition_foldStep β px pe hpx hpe hExit hEnter cur d.1 ⟨d.2 wd.app, wd.log⟩
    obtain ⟨errs, c, hr, hlen, hc, hlast⟩ := ih (foldStep px pe cur d.1) c1.world
    have hc1 : c1 = ⟨⟨some (foldStep px pe cur d.1), false⟩, c1.world⟩ := by
      cases c1
      simp_all
    rw [← hc1] at hr
    refine ⟨err :: errs, c, ?_, by simp [hlen], by simpa using hc, ?_⟩
    · simp [returns, hT, hr]
    · simp only [List.map_cons, List.foldl_cons, List.zip_cons_cons, lastAccepted_cons]
      rw [hlast]
      congr 1
      simp only [foldStep, herr]

/-- C17. With predicates that are pure functions of the two states (`px` for
`ExitAllowed`, `pe` for `EnterAllowed`) and hooks that return when reached, for
every machine constructed with `s0` and every finite list of non-nil
destinations requested in order (whatever the application does in between):
every call returns, and the final `ActiveState()` is the left fold of
`foldStep` over the destinations from `s0`, which is also the destination of
the last request that returned nil, or `s0` when none did. -/
theorem final_active_state_is_fold {S W : Type} (β : State S W) (px pe : S → S → Bool)
    (hpx : ∀ r a v w, β.ExitAllowed r (some a) v w = .ret (px r a) w)
    (hpe : ∀ r a v w, β.EnterAllowed r (some a) v w = .ret (pe r a) w)
    (hExit : ∀ r a v w, px r a = true → pe a r = true → ∃ w1, β.Exit r v w = .ret () w1)
    (hEnter : ∀ r a v w, px a r = true → pe r a = true → ∃ w1, β.Enter r v w = .ret () w1)
    (s0 : S) (wd wd0 : World S W) (m : StateMachine S)
    (hnew : NewStateMachine β (some s0) wd = .ret (some m, none) wd0)
    (ds : List (S × (W → W))) :
    ∃ errs c, returns β ⟨m, wd0⟩ (ds.map (fun d => ⟨some d.1, d.2⟩)) = some (errs, c) ∧
      errs.length = ds.length ∧
      ActiveState c.machine = some ((ds.map Prod.fst).foldl (foldStep px pe) s0) ∧
      ActiveState c.machine = some (lastAccepted s0 ((ds.map Prod.fst).zip errs)) := by
  obtain ⟨i, hi, hm, _⟩ := NewStateMachine_machine β (some s0) wd wd0 m none hnew
  have hi0 : i = s0 := (Option.some.inj hi).symm
  subst hi0
  subst hm
  obtain ⟨errs, c, hr, hlen, hc, hlast⟩ :=
    returns_foldStep β px pe hpx hpe hExit hEnter ds i wd0
  refine ⟨errs, c, hr, hlen, by simp [ActiveState, hc], ?_⟩
  rw [← hlast]
  simp [ActiveState, hc]

/-- C17 on the tests' states, from `source` through `testDestinations`. -/
theorem final_active_state_is_fold_witness :
    ∃ errs c, returns testStates ⟨machineAt .source, sourceEnteredWorld⟩
        (testDestinations.map (fun d => ⟨some d.1, d.2⟩)) = some (errs, c) ∧
      errs.length = testDestinations.length ∧
      ActiveState c.machine
        = some ((testDestinations.map Prod.fst).foldl
          (foldStep (fun r _ => r != TestRef.exitNotAllowed)
            (fun r _ => r != TestRef.enterNotAllowed)) .source) ∧
      ActiveState c.machine
        = some (lastAccepted .source ((testDestinations.map Prod.fst).zip errs)) :=
  final_active_state_is_fold testStates (fun r _ => r != .exitNotAllowed)
    (fun r _ => r != .enterNotAllowed)
    (by intro r a v w; cases r <;> rfl)
    (by intro r a v w; cases r <;> rfl)
    (by intro r a v w h1 h2; cases r <;> first | exact ⟨_, rfl⟩ | cases h1)
    (by intro r a v w h1 h2; cases r <;> first | exact ⟨_, rfl⟩ | cases h2)
    .source testWorld sourceEnteredWorld (machineAt .source) rfl testDestinations

/-! ## The hook trace -/

/-- A machine returned by `NewStateMachine` comes with the two calls of its
construction logged. -/
theorem NewStateMachine_log {S W : Type} (β : State S W) (init : Option S)
    (wd wd0 : World S W) (m : StateMachine S) (err : Option Error)
    (h : NewStateMachine β init wd = .ret (some m, err) wd0) :
    ∃ i, init = some i ∧ m = ⟨some i, false⟩ ∧
      wd0.log = wd.log ++ [⟨Call.EnterAllowed i (some i), none⟩, ⟨Call.Enter i, none⟩] := by
  cases init with
  | none => simp [NewStateMachine] at h
  | some i =>
    refine ⟨i, rfl, ?_⟩
    cases he : β.EnterAllowed i (some i) none wd.app with
    | hang => simp [NewStateMachine, callEnterAllowed, he] at h
    | panic w1 => simp [NewStateMachine, callEnterAllowed, he] at h
    | ret e w1 =>
      cases e with
      | false => simp [NewStateMachine, callEnterAllowed, he] at h
      | true =>
        cases hN : β.Enter i none w1 with
        | hang => simp [NewStateMachine, callEnterAllowed, he, callEnter, hN] at h
        | panic w2 => simp [NewStateMachine, callEnterAllowed, he, callEnter, hN] at h
        | ret u w2 =>
          simp [NewStateMachine, callEnterAllowed, he, callEnter, hN] at h
          obtain ⟨⟨hm, _⟩, hw⟩ := h
          subst hm
          subst hw
          simp

theorem alternates_append {S : Type} [DecidableEq S] (cur : S) (t : List (Call S)) :
    ∀ (a b : S), alternates cur t = some a →
      alternates cur (t ++ [Call.Exit a, Call.Enter b]) = some b := by
  induction cur, t using alternates.induct with
  | case1 cur =>
    intro a b h
    simp only [alternates, Option.some.injEq] at h
    subst h
    simp [alternates]
  | case2 a1 b1 rest ih =>
    intro a b h
    simp only [alternates, if_true] at h
    simpa [alternates] using ih a b h
  | case3 cur a1 b1 rest hne =>
    intro a b h
    simp [alternates, hne] at h
  | case4 t x h1 h2 =>
    intro a b h
    rw [alternates.eq_3 x t h1 h2] at h
    cases h

theorem alternates_getLast {S : Type} [DecidableEq S] (cur : S) (t : List (Call S)) :
    ∀ (a : S), alternates cur t = some a →
      (Call.Enter cur :: t).getLast? = some (Call.Enter a) := by
  induction cur, t using alternates.induct with
  | case1 cur =>
    intro a h
    simp only [alternates, Option.some.injEq] at h
    subst h
    rfl
  | case2 a1 b1 rest ih =>
    intro a h
    simp only [alternates, if_true] at h
    have := ih a h
    simpa [List.getLast?_cons_cons] using this
  | case3 cur a1 b1 rest hne =>
    intro a h
    simp [alternates, hne] at h
  | case4 t x h1 h2 =>
    intro a h
    rw [alternates.eq_3 x t h1 h2] at h
    cases h

/-- One returning call keeps the form of the hook trace: a denied call adds no
hook, an accepted one adds `Exit` of the active state and `Enter` of the new
one. -/
theorem Transition_keeps_trace {S W : Type} [DecidableEq S] (β : State S W)
    (s : StateMachine S) (d : Option S) (app : W) (base evs : List (Event S))
    (err : Option Error) (c : Cfg S W) (s0 a : S) (rest : List (Call S))
    (htrace : hookTrace evs = Call.Enter s0 :: rest) (halt : alternates s0 rest = some a)
    (hact : s.activeState = some a)
    (h : Transition β s d ⟨app, base ++ evs⟩ = .ret err c) :
    ∃ evs1 a1 rest1, c.world.log = base ++ evs1 ∧
      hookTrace evs1 = Call.Enter s0 :: rest1 ∧ alternates s0 rest1 = some a1 ∧
      c.machine.activeState = some a1 := by
  obtain ⟨_, A, hA, hcase⟩ := Transition_ret_cases β s d _ err c h
  have hAa : A = a := by
    rw [hact] at hA
    exact (Option.some.inj hA).symm
  subst hAa
  rcases hcase with ⟨w1, _, _, hc⟩ | ⟨B, w1, w2, _, _, _, _, hc⟩ |
    ⟨B, w1, w2, w3, w4, _, _, _, _, _, _, hc⟩
  · subst hc
    refine ⟨evs ++ [⟨Call.ExitAllowed A d, some (lock s)⟩], A, rest, by simp, ?_, halt, hact⟩
    rw [hookTrace_append, htrace]
    simp [hookTrace, Call.isHook]
  · subst hc
    refine ⟨evs ++ [⟨Call.ExitAllowed A (some B), some (lock s)⟩,
      ⟨Call.EnterAllowed B (some A), some (lock s)⟩], A, rest, by simp, ?_, halt, hact⟩
    rw [hookTrace_append, htrace]
    simp [hookTrace, Call.isHook]
  · subst hc
    refine ⟨evs ++ [⟨Call.ExitAllowed A (some B), some (lock s)⟩,
      ⟨Call.EnterAllowed B (some A), some (lock s)⟩, ⟨Call.Exit A, some (lock s)⟩,
      ⟨Call.Enter B, some (lock s)⟩], B, rest ++ [Call.Exit A, Call.Enter B], by simp, ?_,
      alternates_append s0 rest A B halt, rfl⟩
    rw [hookTrace_append, htrace]
    simp [hookTrace, Call.isHook]

/-- A sequence of returning calls keeps the form of the hook trace. -/
theorem returns_keep_trace {S W : Type} [DecidableEq S] (β : State S W)
    (base : List (Event S)) (s0 : S) (qs : List (Request S W)) :
    ∀ (c : Cfg S W) (evs : List (Event S)) (a : S) (rest : List (Call S)),
      c.world.log = base ++ evs → hookTrace evs = Call.Enter s0 :: rest →
      alternates s0 rest = some a → c.machine.activeState = some a →
      ∀ errs c1, returns β c qs = some (errs, c1) →
        ∃ evs1 a1 rest1, c1.world.log = base ++ evs1 ∧
          hookTrace evs1 = Call.Enter s0 :: rest1 ∧ alternates s0 rest1 = some a1 ∧
          c1.machine.activeState = some a1 := by
  induction qs with
  | nil =>
    intro c evs a rest hlog htrace halt hact errs c1 h
    simp only [returns, Option.some.injEq, Prod.mk.injEq] at h
    obtain ⟨_, hc⟩ := h
    subst hc
    exact ⟨evs, a, rest, hlog, htrace, halt, hact⟩
  | cons q qs ih =>
    intro c evs a rest hlog htrace halt hact errs c1 h
    unfold returns at h
    cases hT : Transition β c.machine q.destination ⟨q.env c.world.app, c.world.log⟩ with
    | hang => simp [hT] at h
    | panic c2 => simp [hT] at h
    | ret err c2 =>
      simp only [hT] at h
      cases hr : returns β c2 qs with
      | none => simp [hr] at h
      | some p =>
        obtain ⟨errs2, c3⟩ := p
        simp only [hr, Option.some.injEq, Prod.mk.injEq] at h
        obtain ⟨_, hc⟩ := h
        subst hc
        rw [hlog] at hT
        obtain ⟨evs2, a2, rest2, hlog2, htrace2, halt2, hact2⟩ :=
          Transition_keeps_trace β c.machine q.destination _ base evs err c2 s0 a rest
            htrace halt hact hT
        exact ih c2 evs2 a2 rest2 hlog2 htrace2 halt2 hact2 errs2 c3 hr

/-- C18. For every machine `m` constructed by `NewStateMachine` on `s0` and
every finite sequence of `Transition` calls that all return, the hooks called
since the start of construction have the form `Enter(s0), Exit(s0), Enter(s1),
Exit(s1), Enter(s2), ...`: the trace starts with `Enter(s0)`, then comes in pairs
of `Exit` on the state active at that point followed at once by an `Enter`, and
its last element is `Enter` on the state that `ActiveState()` returns at the
end. -/
theorem hook_trace_alternates {S W : Type} [DecidableEq S] (β : State S W)
    (init : Option S) (wd wd0 : World S W) (m : StateMachine S)
    (hnew : NewStateMachine β init wd = .ret (some m, none) wd0)
    (qs : List (Request S W)) (errs : List (Option Error)) (c : Cfg S W)
    (hrun : returns β ⟨m, wd0⟩ qs = some (errs, c)) :
    ∃ evs s0 a rest, init = some s0 ∧ c.world.log = wd.log ++ evs ∧
      hookTrace evs = Call.Enter s0 :: rest ∧
      alternates s0 rest = some a ∧
      traceEndsAt (hookTrace evs) = some a ∧
      (hookTrace evs).getLast? = some (Call.Enter a) ∧
      ActiveState c.machine = some a := by
  obtain ⟨i, hi, hm, hlog⟩ := NewStateMachine_log β init wd wd0 m none hnew
  subst hm
  obtain ⟨evs1, a1, rest1, hlog1, htrace1, halt1, hact1⟩ :=
    returns_keep_trace β wd.log i qs ⟨⟨some i, false⟩, wd0⟩
      [⟨Call.EnterAllowed i (some i), none⟩, ⟨Call.Enter i, none⟩] i [] hlog
      (by simp [hookTrace, Call.isHook]) rfl rfl errs c hrun
  refine ⟨evs1, i, a1, rest1, hi, hlog1, htrace1, halt1, ?_, ?_, hact1⟩
  · rw [htrace1]
    exact halt1
  · rw [htrace1]
    exact alternates_getLast i rest1 a1 halt1

/-- C18 on the machine of `TestNewStateMachineHappy` followed by
`happyThenDenied`: both calls return and leave `happyThenDeniedCfg`, whose hook
trace is `Enter(source), Exit(source), Enter(destination)`. -/
theorem hook_trace_alternates_witness :
    returns testStates ⟨machineAt .source, sourceEnteredWorld⟩ happyThenDenied
        = some ([none, some Error.ErrTransitionDenied], happyThenDeniedCfg) ∧
      ∃ evs s0 a rest, some TestRef.source = some s0 ∧
        happyThenDeniedCfg.world.log = testWorld.log ++ evs ∧
        hookTrace evs = Call.Enter s0 :: rest ∧
        alternates s0 rest = some a ∧
        traceEndsAt (hookTrace evs) = some a ∧
        (hookTrace evs).getLast? = some (Call.Enter a) ∧
        ActiveState happyThenDeniedCfg.machine = some a :=
  ⟨by decide, hook_trace_alternates testStates (some .source) testWorld sourceEnteredWorld
    (machineAt .source) rfl happyThenDenied [none, some Error.ErrTransitionDenied]
    happyThenDeniedCfg (by decide)⟩

end StateMachine
